import Mathlib

/-!
Verification of the `icicle-trace` constraint-DSL engine: the
`SymbolicExpression` DAG with degree tracking, the symbolic and debug
`AirBuilder` implementations, the filtered builder, and the bit-level
gadget utilities.  All definitions are shallow embeddings of the Rust
source in `icicle-trace/src`; machine integers become `Nat`, shared
`Arc` children become plain constructor arguments, and panics become
`Option`/`Except` values.
-/

namespace IcicleTrace

/-- Where a symbolic variable lives (`symbolic_variable.rs`, `enum Entry`). -/
inductive Entry where
  | Preprocessed (offset : Nat)
  | Main (offset : Nat)
  | Permutation (offset : Nat)
  | Public
  | Challenge
deriving DecidableEq

/-- A variable within the evaluation window (`symbolic_variable.rs`,
`struct SymbolicVariable`).  The Rust `PhantomData<F>` type parameter is kept. -/
structure SymbolicVariable (F : Type) where
  entry : Entry
  index : Nat
deriving DecidableEq

/-- Degree contribution of a variable (`SymbolicVariable::degree_multiple`). -/
def SymbolicVariable.degree_multiple {F : Type} (v : SymbolicVariable F) : Nat :=
  match v.entry with
  | .Preprocessed _ | .Main _ | .Permutation _ => 1
  | .Public | .Challenge => 0

/-- An expression over symbolic variables (`symbolic_expression.rs`,
`enum SymbolicExpression`).  The `Arc<Self>` children are embedded as direct
subterms; the stored `degree_multiple` of each composite node is an explicit
constructor field, exactly as in the Rust enum. -/
inductive SymbolicExpression (F : Type) where
  | Variable (v : SymbolicVariable F)
  | IsFirstRow
  | IsLastRow
  | IsTransition
  | Constant (c : F)
  | Add (x y : SymbolicExpression F) (degree_multiple : Nat)
  | Sub (x y : SymbolicExpression F) (degree_multiple : Nat)
  | Neg (x : SymbolicExpression F) (degree_multiple : Nat)
  | Mul (x y : SymbolicExpression F) (degree_multiple : Nat)
deriving DecidableEq

namespace SymbolicExpression

variable {F : Type}

/-- Stored degree of an expression (`SymbolicExpression::degree_multiple`). -/
def degree_multiple : SymbolicExpression F → Nat
  | .Variable v => v.degree_multiple
  | .IsFirstRow => 1
  | .IsLastRow => 1
  | .IsTransition => 0
  | .Constant _ => 0
  | .Add _ _ d => d
  | .Sub _ _ d => d
  | .Neg _ d => d
  | .Mul _ _ d => d

/-- The `Add` operator on expressions (`impl Add for SymbolicExpression`):
fold when both operands are constants, otherwise build an `Add` node whose
stored degree is the max of the operands' stored degrees. -/
def add [CommRing F] : SymbolicExpression F → SymbolicExpression F → SymbolicExpression F
  | .Constant a, .Constant b => .Constant (a + b)
  | x, y => .Add x y (max x.degree_multiple y.degree_multiple)

/-- The `Sub` operator (`impl Sub for SymbolicExpression`). -/
def sub [CommRing F] : SymbolicExpression F → SymbolicExpression F → SymbolicExpression F
  | .Constant a, .Constant b => .Constant (a - b)
  | x, y => .Sub x y (max x.degree_multiple y.degree_multiple)

/-- The `Neg` operator (`impl Neg for SymbolicExpression`): a constant folds
via `F::zero() - c`, anything else is wrapped in a `Neg` node. -/
def neg [CommRing F] : SymbolicExpression F → SymbolicExpression F
  | .Constant c => .Constant (0 - c)
  | x => .Neg x x.degree_multiple

/-- The `Mul` operator (`impl Mul for SymbolicExpression`): fold when both
operands are constants, otherwise build a `Mul` node whose stored degree is
the sum of the operands' stored degrees. -/
def mul [CommRing F] : SymbolicExpression F → SymbolicExpression F → SymbolicExpression F
  | .Constant a, .Constant b => .Constant (a * b)
  | x, y => .Mul x y (x.degree_multiple + y.degree_multiple)

/-- `Arithmetic::sqr` for symbolic expressions: a `Mul` node with both
children the input and stored degree twice the input's stored degree. -/
def sqr : SymbolicExpression F → SymbolicExpression F
  | x => .Mul x x (x.degree_multiple * 2)

/-- `FieldImpl::zero()` for symbolic expressions. -/
def zero [CommRing F] : SymbolicExpression F := .Constant 0

/-- `FieldImpl::one()` for symbolic expressions. -/
def one [CommRing F] : SymbolicExpression F := .Constant 1

/-- `FieldImpl::from_u32` for symbolic expressions: the constant embedding of
an integer into the field. -/
def from_u32 [CommRing F] (v : Nat) : SymbolicExpression F := .Constant (v : F)

/-- Whether an expression is a `Constant` leaf. -/
def isConstant : SymbolicExpression F → Prop
  | .Constant _ => True
  | _ => False

instance : DecidablePred (isConstant (F := F)) := by
  intro e
  cases e <;> simp [isConstant] <;> infer_instance

/-- Node count of an expression; used to show that a composite node is never
structurally equal to one of its children. -/
def size : SymbolicExpression F → Nat
  | .Variable _ => 1
  | .IsFirstRow => 1
  | .IsLastRow => 1
  | .IsTransition => 1
  | .Constant _ => 1
  | .Add x y _ => x.size + y.size + 1
  | .Sub x y _ => x.size + y.size + 1
  | .Neg x _ => x.size + 1
  | .Mul x y _ => x.size + y.size + 1

theorem size_pos (e : SymbolicExpression F) : 0 < e.size := by
  cases e <;> simp [size]

theorem add_node_ne_left (x y : SymbolicExpression F) (d : Nat) :
    SymbolicExpression.Add x y d ≠ x := by
  intro h
  have hs := congrArg size h
  have := size_pos y
  simp [size] at hs
  omega

theorem sub_node_ne_left (x y : SymbolicExpression F) (d : Nat) :
    SymbolicExpression.Sub x y d ≠ x := by
  intro h
  have hs := congrArg size h
  have := size_pos y
  simp [size] at hs
  omega

theorem mul_node_ne_left (x y : SymbolicExpression F) (d : Nat) :
    SymbolicExpression.Mul x y d ≠ x := by
  intro h
  have hs := congrArg size h
  have := size_pos y
  simp [size] at hs
  omega

theorem mul_node_ne_right (x y : SymbolicExpression F) (d : Nat) :
    SymbolicExpression.Mul x y d ≠ y := by
  intro h
  have hs := congrArg size h
  have := size_pos x
  simp [size] at hs
  omega

/-- Case analysis for `add`: either both operands are constants and the result
folds, or the result is an `Add` node recording both operands. -/
theorem add_cases [CommRing F] (x y : SymbolicExpression F) :
    (∃ a b, x = .Constant a ∧ y = .Constant b ∧ add x y = .Constant (a + b)) ∨
      add x y = .Add x y (max x.degree_multiple y.degree_multiple) := by
  cases x <;> cases y <;> simp [add]

theorem sub_cases [CommRing F] (x y : SymbolicExpression F) :
    (∃ a b, x = .Constant a ∧ y = .Constant b ∧ sub x y = .Constant (a - b)) ∨
      sub x y = .Sub x y (max x.degree_multiple y.degree_multiple) := by
  cases x <;> cases y <;> simp [sub]

theorem mul_cases [CommRing F] (x y : SymbolicExpression F) :
    (∃ a b, x = .Constant a ∧ y = .Constant b ∧ mul x y = .Constant (a * b)) ∨
      mul x y = .Mul x y (x.degree_multiple + y.degree_multiple) := by
  cases x <;> cases y <;> simp [mul]

theorem neg_cases [CommRing F] (x : SymbolicExpression F) :
    (∃ a, x = .Constant a ∧ neg x = .Constant (0 - a)) ∨
      neg x = .Neg x x.degree_multiple := by
  cases x <;> simp [neg]

/-- The degree an expression would have if recomputed from its structure:
constants and the transition marker have degree 0, the first/last-row markers
degree 1, variables their entry-determined degree, `Add`/`Sub`/`Neg` the max
of their children and `Mul` the sum. -/
def recursiveDegree : SymbolicExpression F → Nat
  | .Variable v => v.degree_multiple
  | .IsFirstRow => 1
  | .IsLastRow => 1
  | .IsTransition => 0
  | .Constant _ => 0
  | .Add x y _ => max x.recursiveDegree y.recursiveDegree
  | .Sub x y _ => max x.recursiveDegree y.recursiveDegree
  | .Neg x _ => x.recursiveDegree
  | .Mul x y _ => x.recursiveDegree + y.recursiveDegree

/-- Expressions reachable through the public constructors (leaves) and the
arithmetic operators `add`, `sub`, `mul`, `neg` and `sqr`;
`Add`/`Sub`/`Neg`/`Mul` nodes can only be produced by these operators. -/
inductive Built [CommRing F] : SymbolicExpression F → Prop where
  | variable_leaf (v : SymbolicVariable F) : Built (.Variable v)
  | isFirstRow : Built .IsFirstRow
  | isLastRow : Built .IsLastRow
  | isTransition : Built .IsTransition
  | constant (c : F) : Built (.Constant c)
  | add_op {x y : SymbolicExpression F} : Built x → Built y → Built (add x y)
  | sub_op {x y : SymbolicExpression F} : Built x → Built y → Built (sub x y)
  | mul_op {x y : SymbolicExpression F} : Built x → Built y → Built (mul x y)
  | neg_op {x : SymbolicExpression F} : Built x → Built (neg x)
  | sqr_op {x : SymbolicExpression F} : Built x → Built (sqr x)

end SymbolicExpression


open SymbolicExpression in
/-- The symbolic builder state (`symbolic_builder.rs`,
`struct SymbolicAirBuilder`): the two-row preprocessed and main variable
matrices (lists of rows), the public-value variables, and the recorded
constraints in emission order. -/
structure SymbolicAirBuilder (F : Type) where
  preprocessed : List (List (SymbolicVariable F))
  main : List (List (SymbolicVariable F))
  public_values : List (SymbolicVariable F)
  constraints : List (SymbolicExpression F)

/-- `SymbolicAirBuilder::new`: materializes two rows of preprocessed and main
variables (offsets 0 and 1) and a flat vector of public-value variables;
starts with no constraints. -/
def SymbolicAirBuilder.new (F : Type) (preprocessed_width width num_public_values : Nat) :
    SymbolicAirBuilder F :=
  ⟨[0, 1].map (fun offset =>
      (List.range preprocessed_width).map (fun index => ⟨.Preprocessed offset, index⟩)),
    [0, 1].map (fun offset =>
      (List.range width).map (fun index => ⟨.Main offset, index⟩)),
    (List.range num_public_values).map (fun index => ⟨.Public, index⟩),
    []⟩

/-- `SymbolicAirBuilder::is_first_row` returns the `IsFirstRow` marker. -/
def SymbolicAirBuilder.is_first_row {F : Type} (b : SymbolicAirBuilder F) :
    SymbolicExpression F :=
  .IsFirstRow

/-- `SymbolicAirBuilder::is_last_row` returns the `IsLastRow` marker. -/
def SymbolicAirBuilder.is_last_row {F : Type} (b : SymbolicAirBuilder F) :
    SymbolicExpression F :=
  .IsLastRow

/-- `SymbolicAirBuilder::is_transition_window`: the `IsTransition` marker for
window size 2; for any other size the Rust code panics, modelled as `none`. -/
def SymbolicAirBuilder.is_transition_window {F : Type} (b : SymbolicAirBuilder F)
    (size : Nat) : Option (SymbolicExpression F) :=
  if size = 2 then some .IsTransition else none

/-- `AirBuilder::is_transition()` is `is_transition_window(2)`, which on the
symbolic builder always succeeds and yields the `IsTransition` marker. -/
def SymbolicAirBuilder.is_transition {F : Type} (b : SymbolicAirBuilder F) :
    SymbolicExpression F :=
  .IsTransition

theorem SymbolicAirBuilder.is_transition_window_two {F : Type}
    (b : SymbolicAirBuilder F) : b.is_transition_window 2 = some b.is_transition := rfl

/-- `SymbolicAirBuilder::assert_zero` pushes the expression onto the
constraint vector. -/
def SymbolicAirBuilder.assert_zero {F : Type} (b : SymbolicAirBuilder F)
    (x : SymbolicExpression F) : SymbolicAirBuilder F :=
  ⟨b.preprocessed, b.main, b.public_values, b.constraints ++ [x]⟩

/-- The filtered sub-builder (`air.rs`, `struct FilteredAirBuilder`),
instantiated at the symbolic builder: an inner builder plus a selector
`condition`.  In the Rust source this type does not implement `AirBuilder`,
so it has no `when` method of its own and filtered builders cannot nest. -/
structure FilteredAirBuilder (F : Type) where
  inner : SymbolicAirBuilder F
  condition : SymbolicExpression F

/-- `AirBuilder::when`: wrap the builder with a selector condition. -/
def SymbolicAirBuilder.when {F : Type} (b : SymbolicAirBuilder F)
    (condition : SymbolicExpression F) : FilteredAirBuilder F :=
  ⟨b, condition⟩

/-- `AirBuilder::when_first_row` is `when(is_first_row())`. -/
def SymbolicAirBuilder.when_first_row {F : Type} (b : SymbolicAirBuilder F) :
    FilteredAirBuilder F :=
  b.when b.is_first_row

/-- `AirBuilder::when_last_row` is `when(is_last_row())`. -/
def SymbolicAirBuilder.when_last_row {F : Type} (b : SymbolicAirBuilder F) :
    FilteredAirBuilder F :=
  b.when b.is_last_row

/-- `AirBuilder::when_transition` is `when(is_transition())`. -/
def SymbolicAirBuilder.when_transition {F : Type} (b : SymbolicAirBuilder F) :
    FilteredAirBuilder F :=
  b.when b.is_transition

/-- `FilteredAirBuilder::assert_zero` forwards `condition * x` to the inner
builder. -/
def FilteredAirBuilder.assert_zero {F : Type} [CommRing F] (fb : FilteredAirBuilder F)
    (x : SymbolicExpression F) : FilteredAirBuilder F :=
  ⟨fb.inner.assert_zero (SymbolicExpression.mul fb.condition x), fb.condition⟩

/-- `FilteredAirBuilder::assert_eq(x, y)` is `assert_zero(x - y)`. -/
def FilteredAirBuilder.assert_eq {F : Type} [CommRing F] (fb : FilteredAirBuilder F)
    (x y : SymbolicExpression F) : FilteredAirBuilder F :=
  fb.assert_zero (SymbolicExpression.sub x y)

/-- `FilteredAirBuilder::assert_one(x)` is `assert_zero(x - 1)`. -/
def FilteredAirBuilder.assert_one {F : Type} [CommRing F] (fb : FilteredAirBuilder F)
    (x : SymbolicExpression F) : FilteredAirBuilder F :=
  fb.assert_zero (SymbolicExpression.sub x SymbolicExpression.one)

/-- An AIR as seen by the symbolic builder: its declared `width`
(`BaseAir::width`) and its constraint-emitting `eval` method specialized to
`SymbolicAirBuilder` (`Air::<SymbolicAirBuilder<F>>::eval`), modelled as a
state transformer on the builder. -/
structure SymAir (F : Type) where
  width : Nat
  evalSym : SymbolicAirBuilder F → SymbolicAirBuilder F

/-- `get_symbolic_constraints` (`symbolic_builder.rs`): instantiate a fresh
builder with the AIR's width, run `eval`, and return the recorded
constraints. -/
def get_symbolic_constraints {F : Type} (air : SymAir F)
    (preprocessed_width num_public_values : Nat) : List (SymbolicExpression F) :=
  (air.evalSym (SymbolicAirBuilder.new F preprocessed_width air.width num_public_values)).constraints

/-- `get_max_constraint_degree`: maximum `degree_multiple` over the symbolic
constraints, or 0 when there are none (`.max().unwrap_or(0)`). -/
def get_max_constraint_degree {F : Type} (air : SymAir F)
    (preprocessed_width num_public_values : Nat) : Nat :=
  (((get_symbolic_constraints air preprocessed_width num_public_values).map
    SymbolicExpression.degree_multiple).max?).getD 0

/-- Semantics of `u64::leading_zeros` (usize is 64-bit here): 64 minus the
position of the highest set bit plus one. -/
def leading_zeros_u64 (k : Nat) : Nat :=
  64 - (List.range 64).foldl (fun acc i => if k.testBit i then i + 1 else acc) 0

/-- `log2_ceil_usize(n) = usize::BITS - n.saturating_sub(1).leading_zeros()`
(`symbolic_builder.rs`). -/
def log2_ceil_usize (n : Nat) : Nat :=
  64 - leading_zeros_u64 (n - 1)

/-- `get_log_quotient_degree`: clamp the max constraint degree to at least 2,
then take `log2_ceil_usize` of that minus one. -/
def get_log_quotient_degree {F : Type} (air : SymAir F)
    (preprocessed_width num_public_values : Nat) : Nat :=
  let constraint_degree :=
    max (get_max_constraint_degree air preprocessed_width num_public_values) 2
  log2_ceil_usize (constraint_degree - 1)

/-- `FibonacciAir::eval` (`tests/fib_air_trace.rs` and
`examples/fib_icicle_trace_sym.rs`): two first-row constraints binding the
first row to the public values `a`, `b`; two transition constraints
`next.left = local.right` and `next.right = local.left + local.right`; one
last-row constraint binding `local.right` to the public value `x`. -/
def fibonacciEval {F : Type} [CommRing F] (builder : SymbolicAirBuilder F) :
    SymbolicAirBuilder F :=
  let mainM := builder.main
  let pis := builder.public_values
  let a := pis.getD 0 ⟨.Public, 0⟩
  let bPub := pis.getD 1 ⟨.Public, 0⟩
  let x := pis.getD 2 ⟨.Public, 0⟩
  let localRow := mainM.getD 0 []
  let nextRow := mainM.getD 1 []
  let localLeft := localRow.getD 0 ⟨.Public, 0⟩
  let localRight := localRow.getD 1 ⟨.Public, 0⟩
  let nextLeft := nextRow.getD 0 ⟨.Public, 0⟩
  let nextRight := nextRow.getD 1 ⟨.Public, 0⟩
  let wfr := builder.when_first_row
  let wfr := wfr.assert_eq (.Variable localLeft) (.Variable a)
  let wfr := wfr.assert_eq (.Variable localRight) (.Variable bPub)
  let builder := wfr.inner
  let wt := builder.when_transition
  let wt := wt.assert_eq (.Variable localRight) (.Variable nextLeft)
  let wt := wt.assert_eq
    (SymbolicExpression.add (.Variable localLeft) (.Variable localRight))
    (.Variable nextRight)
  let builder := wt.inner
  (builder.when_last_row.assert_eq (.Variable localRight) (.Variable x)).inner

/-- The Fibonacci AIR: width `NUM_FIBONACCI_COLS = 2` and the eval above. -/
def FibonacciAir (F : Type) [CommRing F] : SymAir F :=
  ⟨2, fibonacciEval⟩

/-- The BabyBear prime field used by the Fibonacci test. -/
abbrev BabyBear := ZMod 2013265921


/-- `from_bool` (`check_constraints.rs`): 1 for true, 0 for false. -/
def from_bool {F : Type} [CommRing F] (b : Bool) : F :=
  if b then 1 else 0

/-- The debug builder state for one row (`check_constraints.rs`,
`struct DebugConstraintBuilder`): row index, the two-row vertical pair view of
the main trace, the public values, and the three row-selector scalars. -/
structure DebugConstraintBuilder (F : Type) where
  row_index : Nat
  main_local : List F
  main_next : List F
  public_values : List F
  is_first_row : F
  is_last_row : F
  is_transition : F

/-- `DebugConstraintBuilder::is_transition_window`: the transition scalar for
window size 2; any other size panics in Rust, modelled as `none`. -/
def DebugConstraintBuilder.is_transition_window {F : Type}
    (b : DebugConstraintBuilder F) (size : Nat) : Option F :=
  if size = 2 then some b.is_transition else none

/-- One assertion made through the debug builder during an `eval` call:
`assert_zero(x)` or the overridden `assert_eq(x, y)`. -/
inductive DebugAssertion (F : Type) where
  | assertZero (x : F)
  | assertEq (x y : F)
deriving DecidableEq

/-- The panic raised by a failing debug assertion: `assert_zero` reports the
offending row index, `assert_eq` reports the row index and both values. -/
inductive DebugError (F : Type) where
  | nonzeroConstraint (row : Nat)
  | valuesMismatch (row : Nat) (x y : F)
deriving DecidableEq

/-- The row index a debug panic reports. -/
def DebugError.rowOf {F : Type} : DebugError F → Nat
  | .nonzeroConstraint row => row
  | .valuesMismatch row _ _ => row

/-- The predicate a debug assertion checks: `assert_zero(x)` holds when
`x = 0`, `assert_eq(x, y)` when `x = y`. -/
def DebugAssertion.holds {F : Type} [Zero F] : DebugAssertion F → Prop
  | .assertZero x => x = 0
  | .assertEq x y => x = y

instance {F : Type} [DecidableEq F] [Zero F] (a : DebugAssertion F) :
    Decidable a.holds := by
  cases a <;> simp [DebugAssertion.holds] <;> infer_instance

/-- Run one debug assertion at a given row: `DebugConstraintBuilder`'s
`assert_zero` panics with the row index when the value is nonzero, and its
`assert_eq` panics with the row index and both values when they differ. -/
def checkAssertion {F : Type} [DecidableEq F] [Zero F] (row : Nat) :
    DebugAssertion F → Except (DebugError F) Unit
  | .assertZero x => if x = 0 then .ok () else .error (.nonzeroConstraint row)
  | .assertEq x y => if x = y then .ok () else .error (.valuesMismatch row x y)

/-- Run the assertions emitted in one row in order, stopping at the first
panic. -/
def runAsserts {F : Type} [DecidableEq F] [Zero F] (row : Nat) :
    List (DebugAssertion F) → Except (DebugError F) Unit
  | [] => .ok ()
  | a :: rest =>
    match checkAssertion row a with
    | .ok _ => runAsserts row rest
    | .error e => .error e

/-- Run `g 0`, `g 1`, …, `g (n-1)` in order, stopping at the first error:
the embedding of `(0..height).for_each(...)` with a panicking body. -/
def runRange {ε : Type} (g : Nat → Except ε Unit) : Nat → Except ε Unit
  | 0 => .ok ()
  | n + 1 =>
    match runRange g n with
    | .ok _ => g n
    | .error e => .error e

/-- The debug builder `check_constraints` constructs for row `i`: the
two-row view pairs row `i` with row `(i+1) % height`, and the selector
scalars are `from_bool` of `i == 0`, `i == height-1` and `i != height-1`. -/
def debugBuilderAt {F : Type} [CommRing F] (main : List (List F))
    (public_values : List F) (i : Nat) : DebugConstraintBuilder F :=
  let height := main.length
  let i_next := (i + 1) % height
  ⟨i, main.getD i [], main.getD i_next [], public_values,
    from_bool (decide (i = 0)),
    from_bool (decide (i = height - 1)),
    from_bool (decide (i ≠ height - 1))⟩

/-- `check_constraints` (`check_constraints.rs`): for each row
`i ∈ [0, height)` build the debug builder for that row, run the AIR's `eval`
against it (here: the list of assertions `evalDbg` makes on that builder),
and panic at the first violated assertion.  `evalDbg` plays the role of
`Air::<DebugConstraintBuilder<F>>::eval`. -/
def check_constraints {F : Type} [CommRing F] [DecidableEq F]
    (evalDbg : DebugConstraintBuilder F → List (DebugAssertion F))
    (main : List (List F)) (public_values : List F) : Except (DebugError F) Unit :=
  let height := main.length
  runRange (fun i => runAsserts i (evalDbg (debugBuilderAt main public_values i))) height

theorem runAsserts_ok_iff {F : Type} [DecidableEq F] [Zero F] (row : Nat)
    (l : List (DebugAssertion F)) :
    runAsserts row l = .ok () ↔ ∀ a ∈ l, a.holds := by
  induction l with
  | nil => simp [runAsserts]
  | cons a rest ih =>
    cases a with
    | assertZero x =>
      by_cases hx : x = 0 <;>
        simp [runAsserts, checkAssertion, hx, ih, DebugAssertion.holds]
    | assertEq x y =>
      by_cases hx : x = y <;>
        simp [runAsserts, checkAssertion, hx, ih, DebugAssertion.holds]

theorem runAsserts_error_row {F : Type} [DecidableEq F] [Zero F] (row : Nat)
    (l : List (DebugAssertion F)) (e : DebugError F)
    (h : runAsserts row l = .error e) : e.rowOf = row := by
  induction l with
  | nil => simp [runAsserts] at h
  | cons a rest ih =>
    cases a with
    | assertZero x =>
      by_cases hx : x = 0
      · rw [runAsserts, checkAssertion] at h
        simp only [hx, if_pos rfl] at h
        exact ih h
      · rw [runAsserts, checkAssertion] at h
        simp only [if_neg hx] at h
        cases h
        rfl
    | assertEq x y =>
      by_cases hx : x = y
      · rw [runAsserts, checkAssertion] at h
        simp only [hx, if_pos rfl] at h
        exact ih h
      · rw [runAsserts, checkAssertion] at h
        simp only [if_neg hx] at h
        cases h
        rfl

theorem runRange_ok_iff {ε : Type} (g : Nat → Except ε Unit) (n : Nat) :
    runRange g n = .ok () ↔ ∀ i < n, g i = .ok () := by
  induction n with
  | zero => simp [runRange]
  | succ n ih =>
    cases hr : runRange g n with
    | ok u =>
      cases u
      constructor
      · intro h i hi
        rcases Nat.lt_succ_iff_lt_or_eq.mp hi with hlt | heq
        · exact (ih.mp hr) i hlt
        · subst heq
          rw [runRange, hr] at h
          exact h
      · intro h
        rw [runRange, hr]
        exact h n (Nat.lt_succ_self n)
    | error e =>
      rw [runRange, hr]
      simp only [false_iff, reduceCtorEq]
      intro h
      have := ih.mpr (fun i hi => h i (Nat.lt_succ_of_lt hi))
      rw [hr] at this
      cases this

theorem runRange_error_first {ε : Type} (g : Nat → Except ε Unit) (n : Nat)
    (e : ε) (h : runRange g n = .error e) :
    ∃ i < n, g i = .error e ∧ ∀ j < i, g j = .ok () := by
  induction n with
  | zero => simp [runRange] at h
  | succ n ih =>
    cases hr : runRange g n with
    | ok u =>
      cases u
      rw [runRange, hr] at h
      exact ⟨n, Nat.lt_succ_self n, h, fun j hj => (runRange_ok_iff g n).mp hr j hj⟩
    | error e2 =>
      rw [runRange, hr] at h
      cases h
      obtain ⟨i, hi, hgi, hprev⟩ := ih hr
      exact ⟨i, Nat.lt_succ_of_lt hi, hgi, hprev⟩


/-- `u32_to_bits_le` (`utils.rs`) instantiated at `FA = SymbolicExpression F`:
32 little-endian bits of `val`, bit `i` being `FA::one()` when
`val & (1 << i) != 0` and `FA::zero()` otherwise. -/
def u32_to_bits_le {F : Type} [CommRing F] (val : Nat) : List (SymbolicExpression F) :=
  (List.range 32).map (fun i =>
    if val.testBit i then SymbolicExpression.one else SymbolicExpression.zero)

/-- The free function `pack_bits_le` (`utils.rs`) instantiated at
`FA = SymbolicExpression F`: reverse the input and accumulate
`output = output + output; output = output + elem`, starting from
`FA::zero()`. -/
def pack_bits_le {F : Type} [CommRing F] (l : List (SymbolicExpression F)) :
    SymbolicExpression F :=
  l.reverse.foldl
    (fun output elem => SymbolicExpression.add (SymbolicExpression.add output output) elem)
    SymbolicExpression.zero

/-- The `AirBuilder::pack_bits_le` trait default on the symbolic builder:
`two = one() + one()`, then reverse the input and accumulate
`output = output * two; output = output + elem`, starting from `zero()`. -/
def SymbolicAirBuilder.pack_bits_le {F : Type} [CommRing F] (b : SymbolicAirBuilder F)
    (l : List (SymbolicExpression F)) : SymbolicExpression F :=
  let two := SymbolicExpression.add SymbolicExpression.one SymbolicExpression.one
  l.reverse.foldl
    (fun output elem => SymbolicExpression.add (SymbolicExpression.mul output two) elem)
    SymbolicExpression.zero

/-- `add2` (`utils.rs`) instantiated at the debug builder, where
`Expr = Var = F`: the list records, in order, the two values passed to
`builder.assert_zero`, namely `acc*(acc + 2^32)` and `acc_16*(acc_16 + 2^16)`
with `acc_16 = a[0]-b[0]-c[0]`, `acc_32 = a[1]-b[1]-c[1]` and
`acc = acc_16 + 2^16*acc_32`. -/
def add2 {F : Type} [CommRing F] (a b c : F × F) : List (DebugAssertion F) :=
  let two_16 : F := ((1 <<< 16 : Nat) : F)
  let two_32 : F := two_16 ^ 2
  let acc_16 := a.1 - b.1 - c.1
  let acc_32 := a.2 - b.2 - c.2
  let acc := acc_16 + two_16 * acc_32
  [.assertZero (acc * (acc + two_32)), .assertZero (acc_16 * (acc_16 + two_16))]

theorem mod_two_pow_succ (v n : Nat) :
    v % 2 ^ (n + 1) = (if v.testBit n then 2 ^ n else 0) + v % 2 ^ n := by
  rw [pow_succ, Nat.mod_mul, Nat.testBit_to_div_mod]
  rcases Nat.mod_two_eq_zero_or_one (v / 2 ^ n) with h2 | h2 <;> simp [h2] <;> omega

theorem foldl_double_add_constant {F : Type} [CommRing F] (l : List F) (acc : F) :
    List.foldl
      (fun output elem =>
        SymbolicExpression.add (SymbolicExpression.add output output) elem)
      (.Constant acc) (l.map .Constant) =
      SymbolicExpression.Constant (List.foldl (fun o e => o + o + e) acc l) := by
  induction l generalizing acc with
  | nil => rfl
  | cons x rest ih =>
    simp only [List.map_cons, List.foldl_cons]
    exact ih (acc + acc + x)

theorem foldl_mul_two_constant {F : Type} [CommRing F] (l : List F) (acc : F) :
    List.foldl
      (fun output elem =>
        SymbolicExpression.add
          (SymbolicExpression.mul output
            (SymbolicExpression.add SymbolicExpression.one SymbolicExpression.one)) elem)
      (.Constant acc) (l.map .Constant) =
      SymbolicExpression.Constant (List.foldl (fun o e => o * (1 + 1) + e) acc l) := by
  induction l generalizing acc with
  | nil => rfl
  | cons x rest ih =>
    simp only [List.map_cons, List.foldl_cons]
    exact ih (acc * (1 + 1) + x)

theorem foldl_double_add_bits {F : Type} [CommRing F] (v : Nat) (n : Nat) (acc : F) :
    List.foldl (fun o e => o + o + e) acc
      (((List.range n).map (fun i => if v.testBit i then (1 : F) else 0)).reverse) =
      acc * 2 ^ n + ((v % 2 ^ n : Nat) : F) := by
  induction n generalizing acc with
  | zero => simp [Nat.mod_one]
  | succ n ih =>
    rw [List.range_succ, List.map_append, List.reverse_append]
    simp only [List.map_cons, List.map_nil, List.reverse_singleton,
      List.singleton_append, List.foldl_cons]
    rw [ih, mod_two_pow_succ]
    by_cases hb : v.testBit n <;> simp [hb] <;> push_cast <;> ring

theorem foldl_mul_two_bits {F : Type} [CommRing F] (v : Nat) (n : Nat) (acc : F) :
    List.foldl (fun o e => o * (1 + 1) + e) acc
      (((List.range n).map (fun i => if v.testBit i then (1 : F) else 0)).reverse) =
      acc * 2 ^ n + ((v % 2 ^ n : Nat) : F) := by
  rw [List.foldl_ext (fun o e => o * (1 + 1) + e) (fun o e => o + o + e)]
  · exact foldl_double_add_bits v n acc
  · intro a b hb
    ring


theorem SymbolicExpression.add_node_ne_right {F : Type} (x y : SymbolicExpression F)
    (d : Nat) : SymbolicExpression.Add x y d ≠ y := by
  intro h
  have hs := congrArg SymbolicExpression.size h
  have := SymbolicExpression.size_pos x
  simp [SymbolicExpression.size] at hs
  omega

theorem SymbolicExpression.mul_node_ne_constant {F : Type} (x y : SymbolicExpression F)
    (d : Nat) (c : F) : SymbolicExpression.Mul x y d ≠ .Constant c := by
  intro h
  cases h

/-- C1 counterexample: at `e = IsFirstRow`, the `Add` operator does not return
`e` when the other operand is `Constant(0)`; it builds an `Add` node, because
the Rust operator only folds the both-constant case and performs no identity
simplification. -/
theorem c1_add_zero_cex :
    SymbolicExpression.add (SymbolicExpression.IsFirstRow : SymbolicExpression BabyBear)
      (.Constant 0) ≠ .IsFirstRow := by
  decide

/-- C1 (amended): the identities `e + 0 = e`, `0 + e = e`, `e - 0 = e`,
`e * 1 = e`, `1 * e = e`, `e * 0 = 0`, `0 * e = 0` hold only when `e` is
itself a `Constant`, where they follow from constant folding; `-Constant(0)`
is always `Constant(0)`.  For every non-constant `e` the operators instead
return a composite `Add`/`Sub`/`Mul` node, so each of the seven identities
fails. -/
theorem c1_identities_only_for_constants {F : Type} [CommRing F] (c : F)
    (e : SymbolicExpression F) (he : ¬ e.isConstant) :
    (SymbolicExpression.add (.Constant c) (.Constant 0) = .Constant c ∧
      SymbolicExpression.add (.Constant 0) (.Constant c) = .Constant c ∧
      SymbolicExpression.sub (.Constant c) (.Constant 0) = .Constant c ∧
      SymbolicExpression.mul (.Constant c) (.Constant 1) = .Constant c ∧
      SymbolicExpression.mul (.Constant 1) (.Constant c) = .Constant c ∧
      SymbolicExpression.mul (.Constant c) (.Constant 0) = .Constant 0 ∧
      SymbolicExpression.mul (.Constant 0) (.Constant c) = .Constant 0 ∧
      SymbolicExpression.neg (.Constant (0 : F)) = .Constant 0) ∧
    (SymbolicExpression.add e (.Constant 0) ≠ e ∧
      SymbolicExpression.add (.Constant 0) e ≠ e ∧
      SymbolicExpression.sub e (.Constant 0) ≠ e ∧
      SymbolicExpression.mul e (.Constant 1) ≠ e ∧
      SymbolicExpression.mul (.Constant 1) e ≠ e ∧
      SymbolicExpression.mul e (.Constant 0) ≠ .Constant 0 ∧
      SymbolicExpression.mul (.Constant 0) e ≠ .Constant 0) := by
  constructor
  · refine ⟨?_, ?_, ?_, ?_, ?_, ?_, ?_, ?_⟩ <;>
      simp [SymbolicExpression.add, SymbolicExpression.sub, SymbolicExpression.mul,
        SymbolicExpression.neg]
  · refine ⟨?_, ?_, ?_, ?_, ?_, ?_, ?_⟩
    · rcases SymbolicExpression.add_cases e (.Constant 0) with ⟨a, b2, hea, _, _⟩ | hnode
      · exact absurd (by rw [hea]; trivial) he
      · rw [hnode]; exact SymbolicExpression.add_node_ne_left _ _ _
    · rcases SymbolicExpression.add_cases (.Constant 0) e with ⟨a, b2, _, heb, _⟩ | hnode
      · exact absurd (by rw [heb]; trivial) he
      · rw [hnode]; exact SymbolicExpression.add_node_ne_right _ _ _
    · rcases SymbolicExpression.sub_cases e (.Constant 0) with ⟨a, b2, hea, _, _⟩ | hnode
      · exact absurd (by rw [hea]; trivial) he
      · rw [hnode]; exact SymbolicExpression.sub_node_ne_left _ _ _
    · rcases SymbolicExpression.mul_cases e (.Constant 1) with ⟨a, b2, hea, _, _⟩ | hnode
      · exact absurd (by rw [hea]; trivial) he
      · rw [hnode]; exact SymbolicExpression.mul_node_ne_left _ _ _
    · rcases SymbolicExpression.mul_cases (.Constant 1) e with ⟨a, b2, _, heb, _⟩ | hnode
      · exact absurd (by rw [heb]; trivial) he
      · rw [hnode]; exact SymbolicExpression.mul_node_ne_right _ _ _
    · rcases SymbolicExpression.mul_cases e (.Constant 0) with ⟨a, b2, hea, _, _⟩ | hnode
      · exact absurd (by rw [hea]; trivial) he
      · rw [hnode]; exact SymbolicExpression.mul_node_ne_constant _ _ _ _
    · rcases SymbolicExpression.mul_cases (.Constant 0) e with ⟨a, b2, _, heb, _⟩ | hnode
      · exact absurd (by rw [heb]; trivial) he
      · rw [hnode]; exact SymbolicExpression.mul_node_ne_constant _ _ _ _

/-- C1 witness: the amended theorem applied at `c = 3` and the non-constant
expression `e = IsFirstRow` over BabyBear. -/
theorem c1_identities_only_for_constants_witness :
    SymbolicExpression.add (.Constant (3 : BabyBear)) (.Constant 0) = .Constant 3 ∧
      SymbolicExpression.mul (SymbolicExpression.IsFirstRow : SymbolicExpression BabyBear)
        (.Constant 0) ≠ .Constant 0 := by
  have h := c1_identities_only_for_constants (F := BabyBear) 3
    SymbolicExpression.IsFirstRow (by decide)
  exact ⟨h.1.1, h.2.2.2.2.2.2.1⟩

/-- C2: for every expression built through the public constructors and the
arithmetic operators, the stored `degree_multiple` equals the degree
recomputed recursively from the structure (constants and the transition
marker 0, first/last-row markers 1, variables by entry, add/sub/neg the max
of children, mul the sum). -/
theorem c2_degree_multiple_eq_recursive {F : Type} [CommRing F]
    (e : SymbolicExpression F) (h : SymbolicExpression.Built e) :
    e.degree_multiple = SymbolicExpression.recursiveDegree e := by
  induction h with
  | variable_leaf v => rfl
  | isFirstRow => rfl
  | isLastRow => rfl
  | isTransition => rfl
  | constant c => rfl
  | add_op hx hy ihx ihy =>
    rename_i x y
    rcases SymbolicExpression.add_cases x y with ⟨a, b, _, _, heq⟩ | heq <;> rw [heq]
    · rfl
    · show max x.degree_multiple y.degree_multiple =
        max x.recursiveDegree y.recursiveDegree
      rw [ihx, ihy]
  | sub_op hx hy ihx ihy =>
    rename_i x y
    rcases SymbolicExpression.sub_cases x y with ⟨a, b, _, _, heq⟩ | heq <;> rw [heq]
    · rfl
    · show max x.degree_multiple y.degree_multiple =
        max x.recursiveDegree y.recursiveDegree
      rw [ihx, ihy]
  | mul_op hx hy ihx ihy =>
    rename_i x y
    rcases SymbolicExpression.mul_cases x y with ⟨a, b, _, _, heq⟩ | heq <;> rw [heq]
    · rfl
    · show x.degree_multiple + y.degree_multiple =
        x.recursiveDegree + y.recursiveDegree
      rw [ihx, ihy]
  | neg_op hx ihx =>
    rename_i x
    rcases SymbolicExpression.neg_cases x with ⟨a, _, heq⟩ | heq <;> rw [heq]
    · rfl
    · show x.degree_multiple = x.recursiveDegree
      exact ihx
  | sqr_op hx ihx =>
    rename_i x
    show x.degree_multiple * 2 = x.recursiveDegree + x.recursiveDegree
    rw [ihx]
    omega

/-- C2 witness: the degree contract applied to the concrete built expression
`Variable(Main 0, col 0) * IsLastRow` over BabyBear. -/
theorem c2_degree_multiple_eq_recursive_witness :
    (SymbolicExpression.mul (.Variable ⟨.Main 0, 0⟩)
        (SymbolicExpression.IsLastRow : SymbolicExpression BabyBear)).degree_multiple =
      SymbolicExpression.recursiveDegree
        (SymbolicExpression.mul (.Variable ⟨.Main 0, 0⟩)
          (SymbolicExpression.IsLastRow : SymbolicExpression BabyBear)) :=
  c2_degree_multiple_eq_recursive _
    (.mul_op (.variable_leaf _) .isLastRow)

/-- C3 (single-level part, which the code does satisfy): for every symbolic
builder `b`, condition `c` and expression `e`, `b.when(c).assert_zero(e)`
leaves the inner builder exactly as `b.assert_zero(c * e)` would, so the
recorded expression is structurally `c * e`.  The nested form
`b.when(c1).when(c2)` does not exist in this code: `FilteredAirBuilder` does
not implement `AirBuilder` and has no `when` method. -/
theorem c3_when_assert_zero_single {F : Type} [CommRing F]
    (b : SymbolicAirBuilder F) (c e : SymbolicExpression F) :
    ((b.when c).assert_zero e).inner = b.assert_zero (SymbolicExpression.mul c e) ∧
      ((b.when c).assert_zero e).inner.constraints =
        b.constraints ++ [SymbolicExpression.mul c e] :=
  ⟨rfl, rfl⟩

/-- C4 counterexample: for the Fibonacci AIR with public values of length 3,
`get_symbolic_constraints` does not return 4 constraints of max degree 1. -/
theorem c4_fib_count_degree_cex :
    ¬ ((get_symbolic_constraints (FibonacciAir BabyBear) 0 3).length = 4 ∧
        get_max_constraint_degree (FibonacciAir BabyBear) 0 3 = 1) := by
  decide

/-- C4 (amended): for the Fibonacci AIR, `get_symbolic_constraints(air, 0, 3)`
returns exactly 5 constraints (two filtered first-row constraints, two
transition constraints, one last-row constraint) and the maximum
`degree_multiple` over them is 2 (the first-row and last-row constraints have
degree 2, the transition ones degree 1). -/
theorem c4_fib_count_degree {F : Type} [CommRing F] :
    (get_symbolic_constraints (FibonacciAir F) 0 3).length = 5 ∧
      get_max_constraint_degree (FibonacciAir F) 0 3 = 2 :=
  ⟨rfl, rfl⟩

/-- C9: `is_transition_window(k)` panics (modelled as `none`) for every
`k ≠ 2` on both the symbolic and the debug builder; for `k = 2` it returns
the `IsTransition` marker on the symbolic builder and the current row's
transition scalar on the debug builder. -/
theorem c9_is_transition_window {F : Type} [CommRing F] (k : Nat)
    (sb : SymbolicAirBuilder F) (db : DebugConstraintBuilder F) :
    (k ≠ 2 → sb.is_transition_window k = none ∧ db.is_transition_window k = none) ∧
      (k = 2 → sb.is_transition_window k = some .IsTransition ∧
        db.is_transition_window k = some db.is_transition) := by
  constructor
  · intro hk
    simp [SymbolicAirBuilder.is_transition_window,
      DebugConstraintBuilder.is_transition_window, hk]
  · intro hk
    subst hk
    simp [SymbolicAirBuilder.is_transition_window,
      DebugConstraintBuilder.is_transition_window]

/-- C9 witness: window size 3 is rejected and window size 2 accepted, on a
fresh symbolic builder and a concrete debug builder over `ZMod 5`. -/
theorem c9_is_transition_window_witness :
    ((SymbolicAirBuilder.new (ZMod 5) 0 1 0).is_transition_window 3 = none ∧
        (DebugConstraintBuilder.mk 0 [] [] [] 1 0 1 :
          DebugConstraintBuilder (ZMod 5)).is_transition_window 3 = none) ∧
      ((SymbolicAirBuilder.new (ZMod 5) 0 1 0).is_transition_window 2 =
          some .IsTransition ∧
        (DebugConstraintBuilder.mk 0 [] [] [] 1 0 1 :
          DebugConstraintBuilder (ZMod 5)).is_transition_window 2 =
          some (DebugConstraintBuilder.mk 0 [] [] [] 1 0 1 :
            DebugConstraintBuilder (ZMod 5)).is_transition) :=
  ⟨(c9_is_transition_window 3 _ _).1 (by decide),
    (c9_is_transition_window 2 _ _).2 rfl⟩

/-- C8: `get_log_quotient_degree` equals `log2_ceil_usize` of the max
constraint degree clamped to at least 2, minus 1; in particular it is 1 when
the max degree is 3, 2 when it is 5, and 0 when it is at most 2. -/
theorem c8_log_quotient_degree {F : Type} [CommRing F] (air : SymAir F)
    (pw npv : Nat) :
    get_log_quotient_degree air pw npv =
        log2_ceil_usize (max (get_max_constraint_degree air pw npv) 2 - 1) ∧
      (get_max_constraint_degree air pw npv = 3 →
        get_log_quotient_degree air pw npv = 1) ∧
      (get_max_constraint_degree air pw npv = 5 →
        get_log_quotient_degree air pw npv = 2) ∧
      (get_max_constraint_degree air pw npv ≤ 2 →
        get_log_quotient_degree air pw npv = 0) := by
  refine ⟨rfl, ?_, ?_, ?_⟩
  · intro h
    unfold get_log_quotient_degree
    rw [h]
    decide
  · intro h
    unfold get_log_quotient_degree
    rw [h]
    decide
  · intro h
    unfold get_log_quotient_degree
    rw [Nat.max_eq_right h]
    decide

/-- An AIR emitting one degree-3 constraint, for exercising the quotient
degree computation. -/
def airDeg3 : SymAir BabyBear :=
  ⟨1, fun b => b.assert_zero
    (SymbolicExpression.mul
      (SymbolicExpression.mul (.Variable ⟨.Main 0, 0⟩) (.Variable ⟨.Main 0, 0⟩))
      (.Variable ⟨.Main 0, 0⟩))⟩

/-- An AIR emitting one degree-5 constraint. -/
def airDeg5 : SymAir BabyBear :=
  ⟨1, fun b => b.assert_zero
    (SymbolicExpression.mul
      (SymbolicExpression.mul
        (SymbolicExpression.mul
          (SymbolicExpression.mul (.Variable ⟨.Main 0, 0⟩) (.Variable ⟨.Main 0, 0⟩))
          (.Variable ⟨.Main 0, 0⟩))
        (.Variable ⟨.Main 0, 0⟩))
      (.Variable ⟨.Main 0, 0⟩))⟩

/-- An AIR emitting one degree-1 constraint. -/
def airDeg1 : SymAir BabyBear :=
  ⟨1, fun b => b.assert_zero (.Variable ⟨.Main 0, 0⟩)⟩

/-- C8 witness: quotient log-degrees 1, 2 and 0 for concrete AIRs of max
constraint degree 3, 5 and 1. -/
theorem c8_log_quotient_degree_witness :
    get_log_quotient_degree airDeg3 0 0 = 1 ∧
      get_log_quotient_degree airDeg5 0 0 = 2 ∧
      get_log_quotient_degree airDeg1 0 0 = 0 :=
  ⟨(c8_log_quotient_degree airDeg3 0 0).2.1 (by decide),
    (c8_log_quotient_degree airDeg5 0 0).2.2.1 (by decide),
    (c8_log_quotient_degree airDeg1 0 0).2.2.2 (by decide)⟩

/-- C10: an AIR whose `eval` emits no constraints has
`get_max_constraint_degree = 0` (the `unwrap_or(0)` case, not an error), and
`get_log_quotient_degree = 0` after the degree is clamped to 2. -/
theorem c10_empty_air_degrees {F : Type} [CommRing F] (air : SymAir F)
    (pw npv : Nat) (h : get_symbolic_constraints air pw npv = []) :
    get_max_constraint_degree air pw npv = 0 ∧
      get_log_quotient_degree air pw npv = 0 := by
  have hmax : get_max_constraint_degree air pw npv = 0 := by
    unfold get_max_constraint_degree
    rw [h]
    rfl
  refine ⟨hmax, ?_⟩
  unfold get_log_quotient_degree
  rw [hmax]
  decide

/-- An AIR whose `eval` emits nothing. -/
def emptyAir : SymAir BabyBear := ⟨1, fun b => b⟩

/-- C10 witness: the empty AIR over BabyBear. -/
theorem c10_empty_air_degrees_witness :
    get_max_constraint_degree emptyAir 0 0 = 0 ∧
      get_log_quotient_degree emptyAir 0 0 = 0 :=
  c10_empty_air_degrees emptyAir 0 0 rfl


/-- C5: `check_constraints` evaluates the AIR on every row `i ∈ [0, height)`
and (1) returns normally iff every emitted assertion holds on every row;
(2) on failure it reports the index of the first offending row, all earlier
rows passing; (3) the builder for row `i` pairs row `i` with row
`(i+1) % height` and carries selector scalars that are 1 exactly when
`i = 0`, `i = height-1` and `i ≠ height-1` respectively; and (4) a failing
`assert_eq` reports the row index together with both unequal values. -/
theorem c5_check_constraints_spec {F : Type} [CommRing F] [DecidableEq F]
    [Nontrivial F]
    (evalDbg : DebugConstraintBuilder F → List (DebugAssertion F))
    (main : List (List F)) (public_values : List F) :
    (check_constraints evalDbg main public_values = .ok () ↔
      ∀ i < main.length,
        ∀ a ∈ evalDbg (debugBuilderAt main public_values i), a.holds) ∧
    (∀ e, check_constraints evalDbg main public_values = .error e →
      e.rowOf < main.length ∧
      ¬ (∀ a ∈ evalDbg (debugBuilderAt main public_values e.rowOf), a.holds) ∧
      ∀ j < e.rowOf,
        ∀ a ∈ evalDbg (debugBuilderAt main public_values j), a.holds) ∧
    (∀ i,
      (debugBuilderAt main public_values i).row_index = i ∧
      (debugBuilderAt main public_values i).main_local = main.getD i [] ∧
      (debugBuilderAt main public_values i).main_next =
        main.getD ((i + 1) % main.length) [] ∧
      ((debugBuilderAt main public_values i).is_first_row = 1 ↔ i = 0) ∧
      ((debugBuilderAt main public_values i).is_last_row = 1 ↔
        i = main.length - 1) ∧
      ((debugBuilderAt main public_values i).is_transition = 1 ↔
        i ≠ main.length - 1)) ∧
    (∀ i (x y : F), x ≠ y →
      checkAssertion i (.assertEq x y) = .error (.valuesMismatch i x y)) := by
  have hck : check_constraints evalDbg main public_values =
      runRange
        (fun i => runAsserts i (evalDbg (debugBuilderAt main public_values i)))
        main.length := rfl
  refine ⟨?_, ?_, ?_, ?_⟩
  · rw [hck, runRange_ok_iff]
    constructor
    · intro h i hi a ha
      exact (runAsserts_ok_iff i _).mp (h i hi) a ha
    · intro h i hi
      exact (runAsserts_ok_iff i _).mpr (h i hi)
  · intro e he
    rw [hck] at he
    obtain ⟨i, hi, hgi, hprev⟩ := runRange_error_first _ _ _ he
    have hrow : e.rowOf = i := runAsserts_error_row i _ e hgi
    refine ⟨?_, ?_, ?_⟩
    · rw [hrow]
      exact hi
    · rw [hrow]
      intro hall
      have hok := (runAsserts_ok_iff i _).mpr hall
      rw [hok] at hgi
      cases hgi
    · intro j hj
      rw [hrow] at hj
      exact (runAsserts_ok_iff j _).mp (hprev j hj)
  · intro i
    refine ⟨rfl, rfl, rfl, ?_, ?_, ?_⟩
    · by_cases h0 : i = 0 <;>
        simp [debugBuilderAt, from_bool, h0, zero_ne_one]
    · by_cases hl : i = main.length - 1 <;>
        simp [debugBuilderAt, from_bool, hl, zero_ne_one]
    · by_cases hl : i = main.length - 1 <;>
        simp [debugBuilderAt, from_bool, hl, zero_ne_one]
  · intro i x y hxy
    simp [checkAssertion, hxy]

instance : Nontrivial (ZMod 5) := ⟨0, 1, by decide⟩

/-- C5 witness: an AIR asserting that the first main column is zero passes
`check_constraints` on the all-zero 2-row trace over `ZMod 5`. -/
theorem c5_check_constraints_spec_witness :
    check_constraints
        (fun b => [DebugAssertion.assertZero (b.main_local.getD 0 0)])
        ([[0], [0]] : List (List (ZMod 5))) [] = .ok () :=
  (c5_check_constraints_spec
    (fun b => [DebugAssertion.assertZero (b.main_local.getD 0 0)])
    [[0], [0]] []).1.mpr (by decide)

/-- C6: over a field of characteristic `p > 2^17`, for 16-bit limbs
`a`, `b`, `c` with `a0 = (b0 + c0) mod 2^16` and the carry threaded
(`a0 + 2^16 a1 = (b0 + 2^16 b1 + c0 + 2^16 c1) mod 2^32`), both constraints
emitted by `add2` — `acc*(acc + 2^32)` and `acc_16*(acc_16 + 2^16)` —
evaluate to zero. -/
theorem c6_add2_constraints_vanish (p : Nat) (hp : 2 ^ 17 < p)
    (a0 a1 b0 b1 c0 c1 : Nat)
    (ha0 : a0 < 2 ^ 16) (ha1 : a1 < 2 ^ 16) (hb0 : b0 < 2 ^ 16)
    (hb1 : b1 < 2 ^ 16) (hc0 : c0 < 2 ^ 16) (hc1 : c1 < 2 ^ 16)
    (hlow : a0 = (b0 + c0) % 2 ^ 16)
    (hcarry : a0 + 2 ^ 16 * a1 =
      (b0 + 2 ^ 16 * b1 + c0 + 2 ^ 16 * c1) % 2 ^ 32) :
    ∀ d ∈ add2 ((a0 : ZMod p), (a1 : ZMod p)) ((b0 : ZMod p), (b1 : ZMod p))
        ((c0 : ZMod p), (c1 : ZMod p)), d.holds := by
  have key16 : ((a0 : ℤ) - b0 - c0 = 0) ∨ ((a0 : ℤ) - b0 - c0 = -(2 ^ 16)) := by
    omega
  have key32 :
      ((a0 : ℤ) + 2 ^ 16 * a1 - ((b0 : ℤ) + 2 ^ 16 * b1 + c0 + 2 ^ 16 * c1) = 0) ∨
      ((a0 : ℤ) + 2 ^ 16 * a1 - ((b0 : ℤ) + 2 ^ 16 * b1 + c0 + 2 ^ 16 * c1) =
        -(2 ^ 32)) := by
    omega
  have h16 : (((a0 : ℤ) - b0 - c0) * (((a0 : ℤ) - b0 - c0) + 2 ^ 16)) = 0 := by
    rcases key16 with h | h <;> rw [h] <;> ring
  have h32 :
      (((a0 : ℤ) + 2 ^ 16 * a1 - ((b0 : ℤ) + 2 ^ 16 * b1 + c0 + 2 ^ 16 * c1)) *
        (((a0 : ℤ) + 2 ^ 16 * a1 - ((b0 : ℤ) + 2 ^ 16 * b1 + c0 + 2 ^ 16 * c1)) +
          2 ^ 32)) = 0 := by
    rcases key32 with h | h <;> rw [h] <;> ring
  have hz16 : (((a0 : ZMod p) - b0 - c0) * (((a0 : ZMod p) - b0 - c0) + 2 ^ 16)) = 0 := by
    have hc := congrArg (fun z : ℤ => (z : ZMod p)) h16
    push_cast at hc
    linear_combination hc
  have hz32 :
      (((a0 : ZMod p) + 2 ^ 16 * a1 -
          ((b0 : ZMod p) + 2 ^ 16 * b1 + c0 + 2 ^ 16 * c1)) *
        (((a0 : ZMod p) + 2 ^ 16 * a1 -
          ((b0 : ZMod p) + 2 ^ 16 * b1 + c0 + 2 ^ 16 * c1)) + 2 ^ 32)) = 0 := by
    have hc := congrArg (fun z : ℤ => (z : ZMod p)) h32
    push_cast at hc
    linear_combination hc
  have hshift : ((1 <<< 16 : Nat) : ZMod p) = 2 ^ 16 := by
    norm_num [Nat.shiftLeft_eq]
  intro d hd
  simp only [add2, hshift, List.mem_cons, List.not_mem_nil, or_false] at hd
  rcases hd with rfl | rfl <;> simp only [DebugAssertion.holds]
  · linear_combination hz32
  · linear_combination hz16

/-- C6 witness: `a = (4464, 4)`, `b = (40000, 1)`, `c = (30000, 2)` over
BabyBear — the carry-threaded sum `105536 + 161072 = 266608` — makes both
`add2` constraints vanish. -/
theorem c6_add2_constraints_vanish_witness :
    runAsserts 0
      (add2 ((4464 : ZMod 2013265921), 4) (40000, 1) (30000, 2)) = .ok () :=
  (runAsserts_ok_iff 0 _).mpr
    (c6_add2_constraints_vanish 2013265921 (by decide) 4464 4 40000 1 30000 2
      (by decide) (by decide) (by decide) (by decide) (by decide) (by decide)
      (by decide) (by decide))

/-- C7: for every `v < 2^32`, `u32_to_bits_le(v)` yields 32 constants, bit
`i` being `Constant(1)` or `Constant(0)` according to bit `i` of `v`
(little-endian), and packing them with either `pack_bits_le` (the free
function, doubling the accumulator) or the builder's `pack_bits_le`
(multiplying by `two()`) constant-folds to exactly `Constant(v)` in the
symbolic algebra. -/
theorem c7_bits_roundtrip {F : Type} [CommRing F] (v : Nat) (hv : v < 2 ^ 32) :
    (u32_to_bits_le (F := F) v).length = 32 ∧
    (∀ i < 32, (u32_to_bits_le (F := F) v).getD i SymbolicExpression.zero =
      .Constant (if v.testBit i then 1 else 0)) ∧
    pack_bits_le (u32_to_bits_le (F := F) v) = .Constant ((v : F)) ∧
    (∀ b : SymbolicAirBuilder F,
      b.pack_bits_le (u32_to_bits_le v) = .Constant ((v : F))) := by
  have hbits : u32_to_bits_le (F := F) v =
      ((List.range 32).map (fun i => if v.testBit i then (1 : F) else 0)).map
        .Constant := by
    rw [u32_to_bits_le, List.map_map]
    simp only [Function.comp_def, apply_ite, SymbolicExpression.one,
      SymbolicExpression.zero]
  refine ⟨?_, ?_, ?_, ?_⟩
  · simp [u32_to_bits_le]
  · intro i hi
    rw [u32_to_bits_le, List.getD_eq_getElem?_getD, List.getElem?_map,
      List.getElem?_range hi]
    by_cases hb : v.testBit i <;>
      simp [hb, SymbolicExpression.one, SymbolicExpression.zero]
  · have hz : (SymbolicExpression.zero : SymbolicExpression F) = .Constant 0 := rfl
    rw [hbits]
    simp only [pack_bits_le]
    rw [← List.map_reverse, hz, foldl_double_add_constant,
      foldl_double_add_bits v 32 0, Nat.mod_eq_of_lt hv]
    simp
  · intro b
    have hz : (SymbolicExpression.zero : SymbolicExpression F) = .Constant 0 := rfl
    rw [hbits]
    simp only [SymbolicAirBuilder.pack_bits_le]
    rw [← List.map_reverse, hz, foldl_mul_two_constant,
      foldl_mul_two_bits v 32 0, Nat.mod_eq_of_lt hv]
    simp

/-- C7 witness: the round trip at `v = 305419896` over `ZMod 97`. -/
theorem c7_bits_roundtrip_witness :
    pack_bits_le (u32_to_bits_le (F := ZMod 97) 305419896) =
      .Constant ((305419896 : Nat) : ZMod 97) :=
  (c7_bits_roundtrip 305419896 (by decide)).2.2.1

end IcicleTrace
